import Mathlib

/-!
Verification of the voice-driven interview orchestration engine of the
ai_garaza repository (frontend hooks and interview room page).

Each definition is a shallow embedding of a function from the source:
  - useVoiceRecorder (startRecording / stopRecording / mediaRecorder.onstop /
    checkAudioLevel) from src/frontend/hooks/use-video-stream.ts
  - useIdleDetection from src/frontend/hooks/use-video-stream.ts and the
    inline idle-detection effect of src/frontend/pages/interview-room-page.tsx
  - handleRecordingStart / handleRecordingStop / handleCodeChange /
    toggleRecording from src/frontend/pages/interview-room-page.tsx
  - toggleMute / handleAudioEnded from src/frontend/hooks/use-interview.ts
  - useInterviewAudio (playAudio / stopAudio) from
    src/frontend/hooks/use-speech-recognition.ts
Stateful browser callbacks are modelled by explicit state passing; the
observable side effects (network calls, alerts, scheduled restarts, audio
commands) are collected in action lists in the order the source performs them.
-/

namespace InterviewEngine

/-! ## Silence-gated voice recorder: activation trace (useVoiceRecorder.startRecording)

The observable actions of one call to startRecording, in program order.
In the source, the order of operations on the success path is:
getUserMedia (microphone request) -> AudioContext/analyser setup ->
mediaRecorder.start(100) -> onRecordingStart() callback, where the
orchestrator callback handleRecordingStart stops AI audio when it is
playing (barge-in).  On the failure path (getUserMedia throws), the
catch block sets the error, calls onError and stopRecording; the AI
audio is not touched. -/
inductive RecorderAction
  | requestMic
  | recorderStarted
  | cancelPlayback
  | surfaceError
  deriving DecidableEq

/-- Embedding of handleRecordingStart (interview-room-page.tsx, also
use-interview.ts): stop the AI audio only when it is currently playing. -/
def handleRecordingStart (isAIPlaying : Bool) : List RecorderAction :=
  if isAIPlaying then [RecorderAction.cancelPlayback] else []

/-- Embedding of useVoiceRecorder.startRecording (use-video-stream.ts):
the list of observable actions of one activation, given whether the
recorder was already active, whether the microphone open succeeds, and
whether AI audio is playing when the onRecordingStart callback runs. -/
def startRecording (alreadyRecording micOk isAIPlaying : Bool) : List RecorderAction :=
  if alreadyRecording then []
  else if micOk then
    [RecorderAction.requestMic, RecorderAction.recorderStarted] ++
      handleRecordingStart isAIPlaying
  else
    [RecorderAction.requestMic, RecorderAction.surfaceError]

/-- Whether action a occurs strictly before action b in the trace
(both must occur; positions compared by first occurrence). -/
def occursStrictlyBefore (a b : RecorderAction) (tr : List RecorderAction) : Bool :=
  a ∈ tr && b ∈ tr && tr.indexOf a < tr.indexOf b

/-! ## Recorder stop callback (mediaRecorder.onstop)

The onstop handler assembles the buffered chunks into one blob and
invokes onRecordingStop only when both a callback was supplied and the
blob size is strictly positive. -/

/-- Embedding of mediaRecorder.ondataavailable: a chunk is buffered only
when its size is strictly positive. -/
def recordedChunks (dataEvents : List Nat) : List Nat :=
  dataEvents.filter (fun size => 0 < size)

/-- Embedding of mediaRecorder.onstop (use-video-stream.ts): the blob is
the concatenation of the buffered chunks; the result is the blob size
handed to onRecordingStop, or none when the callback is not invoked. -/
def onstopResult (hasCallback : Bool) (dataEvents : List Nat) : Option Nat :=
  let blobSize := (recordedChunks dataEvents).sum
  if hasCallback = true ∧ 0 < blobSize then some blobSize else none

/-! ## Idle monitor (useIdleDetection / the idle-detection effect)

State of the idle monitor: the last-activity timestamp and the
last-nudge timestamp (lastIdleCheckRef in the source, initially 0).
Each poll tick computes the idle time in seconds and fires the nudge
when both the idle threshold and the cooldown are satisfied; the
last-nudge timestamp is assigned before the awaited callback runs. -/
structure IdleState where
  lastActivity : Nat
  lastIdleCheck : Nat
  deriving DecidableEq

/-- Observable actions of one firing poll tick, in program order: the
source assigns lastIdleCheckRef.current = now and only then awaits
onIdle(idleTime). -/
inductive IdleAction
  | updateLastNudge
  | invokeCallback
  deriving DecidableEq

/-- Embedding of the body of the setInterval callback
(use-video-stream.ts useIdleDetection; identical logic inline in
interview-room-page.tsx): idleThreshold is in seconds, cooldown in
milliseconds, now in milliseconds. -/
def idleTick (idleThreshold cooldown : Nat) (s : IdleState) (now : Nat) :
    IdleState × List IdleAction :=
  let idleTime := (now - s.lastActivity) / 1000
  if idleThreshold ≤ idleTime ∧ cooldown ≤ now - s.lastIdleCheck then
    ({ s with lastIdleCheck := now }, [IdleAction.updateLastNudge, IdleAction.invokeCallback])
  else (s, [])

/-- Run the idle monitor over a list of poll times, collecting for each
poll the actions it performed. -/
def idleRun (idleThreshold cooldown : Nat) (s : IdleState) :
    List Nat → List (Nat × List IdleAction)
  | [] => []
  | now :: rest =>
    let step := idleTick idleThreshold cooldown s now
    (now, step.2) :: idleRun idleThreshold cooldown step.1 rest

/-- Poll times of the 5-second interval over the first 60 seconds after
mount (the source polls every 5000 ms). -/
def pollTimes : List Nat := (List.range 12).map (fun k => 5000 * (k + 1))

/-- Times at which a run fired the nudge callback. -/
def fireTimes (trace : List (Nat × List IdleAction)) : List Nat :=
  (trace.filter (fun p => !p.2.isEmpty)).map Prod.fst

/-! ## Code autosave debouncer (handleCodeChange)

handleCodeChange stores the new code, clears any pending debounce timer
and schedules a new one 800 ms later.  The timer callback is a closure:
it persists the code using the sessionId and canEditCode values captured
when the edit was made, not the values current at fire time (the
useCallback closure is recreated on a canEditCode change, but an
already-scheduled timer keeps the old closure).  Nothing in the source
ever clears the pending timer when canEditCode changes or the session
ends. -/

/-- Eligibility values captured by the timer closure at scheduling time. -/
structure CaptureCtx where
  hasSession : Bool
  canEditCode : Bool
  deriving DecidableEq

/-- A scheduled debounce timer: when it fires, which code value it
carries, and the closure-captured eligibility. -/
structure PendingPersist where
  fireAt : Nat
  value : String
  captured : CaptureCtx
  deriving DecidableEq

/-- Fixed debounce delay of the source (800 ms). -/
def debounceDelay : Nat := 800

/-- Embedding of the timer callback body: persist the carried value only
when the captured sessionId and canEditCode permit it. -/
def firePending (p : PendingPersist) : List (Nat × String) :=
  if p.captured.hasSession && p.captured.canEditCode then [(p.fireAt, p.value)] else []

/-- Timeline events seen by the autosave debouncer: an edit (which runs
handleCodeChange) or the session becoming eligible/ineligible (the
mirrored canEditCode changing). -/
inductive EditorEvent
  | edit (t : Nat) (value : String)
  | setCanEdit (t : Nat) (allowed : Bool)
  deriving DecidableEq

/-- Run of the debouncer over a time-ordered event list.  A pending
timer fires as soon as its deadline is reached (before any event at a
later time); an edit cancels a still-pending timer and schedules a new
one; a canEditCode change touches no timer (the source has no such
cancellation); a timer still pending after the last event fires at its
deadline.  The result is the list of persist calls (time, code). -/
def runAutosave (hasSession canEdit : Bool) (pending : Option PendingPersist) :
    List EditorEvent → List (Nat × String)
  | [] =>
    match pending with
    | some p => firePending p
    | none => []
  | EditorEvent.edit t v :: rest =>
    match pending with
    | some p =>
      if p.fireAt ≤ t then
        firePending p ++
          runAutosave hasSession canEdit
            (some ⟨t + debounceDelay, v, ⟨hasSession, canEdit⟩⟩) rest
      else
        runAutosave hasSession canEdit
          (some ⟨t + debounceDelay, v, ⟨hasSession, canEdit⟩⟩) rest
    | none =>
      runAutosave hasSession canEdit
        (some ⟨t + debounceDelay, v, ⟨hasSession, canEdit⟩⟩) rest
  | EditorEvent.setCanEdit t allowed :: rest =>
    match pending with
    | some p =>
      if p.fireAt ≤ t then firePending p ++ runAutosave hasSession allowed none rest
      else runAutosave hasSession allowed (some p) rest
    | none => runAutosave hasSession allowed none rest

/-! ## Session orchestrator: recording-stop handler and state mirror

The interview API response shape used by the orchestrator
(uploadInterviewAudio / startInterview): stage string, flags, message
tail and an optional assistant audio payload. -/
structure InterviewApiResult where
  stage : String
  can_edit_code : Bool
  task_unlocked : Bool
  interview_ended : Bool
  early_termination : Bool
  messages_tail : List String
  hasAssistantAudio : Bool
  deriving DecidableEq

/-- The orchestrator state mirrored from server responses, plus the
local mode flags that the recording-stop handler reads. -/
structure RoomState where
  stage : String
  canEditCode : Bool
  taskUnlocked : Bool
  interviewEnded : Bool
  earlyTermination : Bool
  messages : List String
  isListeningMode : Bool
  interviewStarted : Bool
  isSending : Bool
  deriving DecidableEq

/-- Embedding of the six mirror setters run on every applied interview-API
response (setStage, setCanEditCode, setTaskUnlocked, setInterviewEnded,
setEarlyTermination, setMessages): the client copies the server-declared
values verbatim. -/
def applyApiResult (s : RoomState) (r : InterviewApiResult) : RoomState :=
  { s with
    stage := r.stage
    canEditCode := r.can_edit_code
    taskUnlocked := r.task_unlocked
    interviewEnded := r.interview_ended
    earlyTermination := r.early_termination
    messages := r.messages_tail }

/-- Initial orchestrator state at mount. -/
def initialRoomState : RoomState :=
  { stage := "INTRO"
    canEditCode := false
    taskUnlocked := false
    interviewEnded := false
    earlyTermination := false
    messages := []
    isListeningMode := false
    interviewStarted := false
    isSending := false }

/-- Fold of the mirror over a sequence of applied responses. -/
def applyAll (s : RoomState) (rs : List InterviewApiResult) : RoomState :=
  rs.foldl applyApiResult s

/-- Observable actions of the recording-stop handler, in program order. -/
inductive StopAction
  | stopAIAudio
  | uploadAudio
  | playAssistantAudio
  | scheduleRestart (delayMs : Nat)
  | showAlert
  deriving DecidableEq

/-- Embedding of handleRecordingStop (interview-room-page.tsx; the
use-interview.ts variant is identical with the listening-mode flag spelt
as the negation of isMuted).  The outcome argument is the result of the
awaited upload call: some response on success, none on a network or
service error.  The isSending flag is set for the duration of the upload
and reset in the finally block, so its net effect on the returned state
is nil and it is left unchanged here. -/
def handleRecordingStop (hasSession : Bool) (s : RoomState) (blobSize : Nat)
    (outcome : Option InterviewApiResult) : RoomState × List StopAction :=
  if !hasSession || !s.interviewStarted || s.isSending then (s, [])
  else if blobSize < 1000 then
    (s, if s.isListeningMode then [StopAction.scheduleRestart 300] else [])
  else
    match outcome with
    | some r =>
      let s2 := applyApiResult s r
      if r.interview_ended then
        ({ s2 with isListeningMode := false },
          [StopAction.stopAIAudio, StopAction.uploadAudio] ++
            (if r.hasAssistantAudio then [StopAction.playAssistantAudio] else []))
      else
        (s2,
          [StopAction.stopAIAudio, StopAction.uploadAudio] ++
            (if r.hasAssistantAudio then [StopAction.playAssistantAudio]
             else if s.isListeningMode then [StopAction.scheduleRestart 500] else []))
    | none =>
      (s,
        [StopAction.stopAIAudio, StopAction.uploadAudio] ++
          (if !s.isListeningMode then [StopAction.showAlert] else []) ++
          (if s.isListeningMode then [StopAction.scheduleRestart 1000] else []))

/-- Modelled from the spec: the backend interview service ("Agent 2", a
Python service whose implementation is not present under src/, only its
documentation) produces responses satisfying the data-model invariant of
spec section 3: canEditCode may only be true if stage is TASK or CODING. -/
def ServerStageInvariant (r : InterviewApiResult) : Prop :=
  r.can_edit_code = true → r.stage = "TASK" ∨ r.stage = "CODING"

/-- The mirrored-state form of the same invariant. -/
def StateStageInvariant (s : RoomState) : Prop :=
  s.canEditCode = true → s.stage = "TASK" ∨ s.stage = "CODING"

/-! ## Mute toggle and post-playback auto-restart (use-interview.ts) -/

/-- The flags read by toggleMute. -/
structure MuteCtx where
  isMuted : Bool
  isRecording : Bool
  isAIPlaying : Bool
  isSending : Bool
  deriving DecidableEq

/-- Observable actions of toggleMute, in program order. -/
inductive MuteAction
  | setMuted (b : Bool)
  | startRec
  | stopRec
  deriving DecidableEq

/-- Embedding of toggleMute (use-interview.ts): unmuting may immediately
start a recording when the engine is idle; muting stops an in-progress
recording. -/
def toggleMute (c : MuteCtx) : List MuteAction :=
  if c.isMuted then
    MuteAction.setMuted false ::
      (if !c.isRecording && !c.isAIPlaying && !c.isSending then [MuteAction.startRec] else [])
  else
    MuteAction.setMuted true ::
      (if c.isRecording then [MuteAction.stopRec] else [])

/-- Embedding of handleAudioEnded (use-interview.ts): after natural
playback completion, a new recording cycle is scheduled exactly when the
engine is unmuted and the recorder is available. -/
def handleAudioEnded (isMuted recorderAvailable : Bool) : Bool :=
  !isMuted && recorderAvailable

/-! ## Playback controller (useInterviewAudio: playAudio / stopAudio)

Each playAudio call constructs a fresh Audio element; elements are
identified here by allocation order.  audioRef holds the most recently
constructed element (a stopAudio pause keeps the reference).  The onended
browser event can only fire for an element that is actually playing: a
paused element (cancelled via stopAudio, which also resets currentTime
to 0) never reaches its end, and an element that already ended fires
onended no further time.  The completions list records, in order, the
elements whose completion callback (onended, hence onAudioEnded) fired. -/
structure PlayerState where
  nextId : Nat
  current : Option Nat
  isPlaying : Bool
  completions : List Nat
  deriving DecidableEq

/-- Initial playback-controller state. -/
def PlayerState.init : PlayerState :=
  { nextId := 0, current := none, isPlaying := false, completions := [] }

/-- Embedding of stopAudio: pause the current element and reset its
position; the element reference survives but the element is no longer
playing.  No completion callback fires. -/
def stopAudio (s : PlayerState) : PlayerState :=
  { s with isPlaying := false }

/-- Commands and browser events driving the playback controller:
play is a playAudio call, cancel is a stopAudio call, naturalEnd is the
onended event of the currently playing element, errorEvt its onerror. -/
inductive PlayerCmd
  | play
  | cancel
  | naturalEnd
  | errorEvt
  deriving DecidableEq

/-- One step of the playback controller.  playAudio first runs stopAudio
(replace semantics in the source), then installs a fresh element and
starts it; onended fires the completion callback exactly for the current
element while it is playing. -/
def playerStep (s : PlayerState) : PlayerCmd → PlayerState
  | PlayerCmd.play =>
    let s2 := stopAudio s
    { s2 with current := some s.nextId, nextId := s.nextId + 1, isPlaying := true }
  | PlayerCmd.cancel => stopAudio s
  | PlayerCmd.naturalEnd =>
    match s.current, s.isPlaying with
    | some i, true => { s with isPlaying := false, completions := s.completions ++ [i] }
    | _, _ => s
  | PlayerCmd.errorEvt => { s with isPlaying := false }

/-- Run the playback controller over a command list. -/
def playerRun (s : PlayerState) : List PlayerCmd → PlayerState
  | [] => s
  | c :: cs => playerRun (playerStep s c) cs

/-- Reachability invariant of the playback controller: the referenced
element was allocated, completion records are for allocated elements and
never duplicated, and a playing element has not completed yet. -/
def PlayerInv (s : PlayerState) : Prop :=
  (∀ i, s.current = some i → i < s.nextId) ∧
  s.completions.Nodup ∧
  (∀ j ∈ s.completions, j < s.nextId) ∧
  (s.isPlaying = true → ∀ i, s.current = some i → i ∉ s.completions)

theorem playerInv_init : PlayerInv PlayerState.init := by
  refine ⟨?_, ?_, ?_, ?_⟩ <;> simp [PlayerState.init, PlayerInv]

theorem playerStep_play (s : PlayerState) :
    playerStep s PlayerCmd.play =
      { nextId := s.nextId + 1, current := some s.nextId, isPlaying := true,
        completions := s.completions } := rfl

theorem playerStep_cancel (s : PlayerState) :
    playerStep s PlayerCmd.cancel = { s with isPlaying := false } := rfl

theorem playerStep_errorEvt (s : PlayerState) :
    playerStep s PlayerCmd.errorEvt = { s with isPlaying := false } := rfl

theorem playerStep_naturalEnd_playing (s : PlayerState) (i : Nat)
    (hc : s.current = some i) (hp : s.isPlaying = true) :
    playerStep s PlayerCmd.naturalEnd =
      { s with isPlaying := false, completions := s.completions ++ [i] } := by
  simp [playerStep, hc, hp]

theorem playerStep_naturalEnd_not_playing (s : PlayerState) (hp : s.isPlaying = false) :
    playerStep s PlayerCmd.naturalEnd = s := by
  cases hc : s.current <;> simp [playerStep, hc, hp]

theorem playerStep_naturalEnd_none (s : PlayerState) (hc : s.current = none) :
    playerStep s PlayerCmd.naturalEnd = s := by
  cases hp : s.isPlaying <;> simp [playerStep, hc, hp]

theorem playerInv_step (s : PlayerState) (c : PlayerCmd) (h : PlayerInv s) :
    PlayerInv (playerStep s c) := by
  obtain ⟨h1, h2, h3, h4⟩ := h
  cases c with
  | play =>
    rw [playerStep_play]
    refine ⟨?_, h2, ?_, ?_⟩
    · intro i hi
      have hi2 : i = s.nextId := by simpa using hi.symm
      subst hi2
      show s.nextId < s.nextId + 1
      omega
    · intro j hj
      have := h3 j hj
      show j < s.nextId + 1
      omega
    · intro _ i hi hmem
      have hi2 : i = s.nextId := by simpa using hi.symm
      subst hi2
      exact absurd (h3 _ hmem) (by omega)
  | cancel =>
    rw [playerStep_cancel]
    exact ⟨fun i hi => h1 i hi, h2, fun j hj => h3 j hj, fun hp => by simp at hp⟩
  | naturalEnd =>
    cases hp : s.isPlaying with
    | false => rw [playerStep_naturalEnd_not_playing s hp]; exact ⟨h1, h2, h3, h4⟩
    | true =>
      cases hc : s.current with
      | none => rw [playerStep_naturalEnd_none s hc]; exact ⟨h1, h2, h3, h4⟩
      | some i =>
        have hnot : i ∉ s.completions := h4 hp i hc
        rw [playerStep_naturalEnd_playing s i hc hp]
        refine ⟨fun k hk => h1 k hk, ?_, ?_, ?_⟩
        · refine List.Nodup.append h2 (List.nodup_singleton i) ?_
          intro a ha hb
          simp at hb
          subst hb
          exact hnot ha
        · intro j hj
          simp at hj
          rcases hj with hj | hj
          · exact h3 j hj
          · subst hj; exact h1 j hc
        · intro hcontra
          simp at hcontra
  | errorEvt =>
    rw [playerStep_errorEvt]
    exact ⟨fun i hi => h1 i hi, h2, fun j hj => h3 j hj, fun hp => by simp at hp⟩

theorem playerInv_run (s : PlayerState) (cs : List PlayerCmd) (h : PlayerInv s) :
    PlayerInv (playerRun s cs) := by
  induction cs generalizing s with
  | nil => exact h
  | cons c cs ih => exact ih _ (playerInv_step s c h)

/-- The allocation counter never decreases along a run. -/
theorem playerRun_nextId_mono (s : PlayerState) (cs : List PlayerCmd) :
    s.nextId ≤ (playerRun s cs).nextId := by
  induction cs generalizing s with
  | nil => exact Nat.le_refl _
  | cons c cs ih =>
    refine Nat.le_trans ?_ (ih (playerStep s c))
    cases c with
    | play => rw [playerStep_play]; exact Nat.le_succ _
    | cancel => rw [playerStep_cancel]
    | naturalEnd =>
      cases hp : s.isPlaying with
      | false => rw [playerStep_naturalEnd_not_playing s hp]
      | true =>
        cases hc : s.current with
        | none => rw [playerStep_naturalEnd_none s hc]
        | some i => rw [playerStep_naturalEnd_playing s i hc hp]
    | errorEvt => rw [playerStep_errorEvt]

/-- Provenance of completion records: any completion present after a run
was already present before it, or belongs to the element that was
playing at the start, or to an element allocated during the run. -/
theorem playerRun_completions_from (s : PlayerState) (cs : List PlayerCmd) (j : Nat)
    (hj : j ∈ (playerRun s cs).completions) :
    j ∈ s.completions ∨ (s.isPlaying = true ∧ s.current = some j) ∨ s.nextId ≤ j := by
  induction cs generalizing s with
  | nil => exact Or.inl hj
  | cons c cs ih =>
    have hstep := ih (playerStep s c) hj
    cases c with
    | play =>
      rw [playerStep_play] at hstep
      rcases hstep with h | h | h
      · exact Or.inl h
      · simp at h
        right; right; omega
      · simp at h
        right; right; omega
    | cancel =>
      rw [playerStep_cancel] at hstep
      rcases hstep with h | h | h
      · exact Or.inl h
      · simp at h
      · right; right; exact h
    | naturalEnd =>
      cases hp : s.isPlaying with
      | false =>
        rw [playerStep_naturalEnd_not_playing s hp] at hstep
        rcases hstep with h | h | h
        · exact Or.inl h
        · rw [hp] at h
          simp at h
        · right; right; exact h
      | true =>
        cases hc : s.current with
        | none =>
          rw [playerStep_naturalEnd_none s hc] at hstep
          rcases hstep with h | h | h
          · exact Or.inl h
          · rw [hc] at h
            simp at h
          · right; right; exact h
        | some i =>
          rw [playerStep_naturalEnd_playing s i hc hp] at hstep
          rcases hstep with h | h | h
          · simp at h
            rcases h with h | h
            · exact Or.inl h
            · subst h; exact Or.inr (Or.inl ⟨rfl, rfl⟩)
          · simp at h
          · right; right; exact h
    | errorEvt =>
      rw [playerStep_errorEvt] at hstep
      rcases hstep with h | h | h
      · exact Or.inl h
      · simp at h
      · right; right; exact h

/-! ## Voice-activity detection (checkAudioLevel in useVoiceRecorder)

Each animation-frame callback computes the RMS energy of the analysis
window and compares it to the silence threshold.  A loud sample sets
hasSpoken and clears the silence-start timestamp; a silent sample after
speech records the silence start or, once the silence has lasted longer
than the configured duration, stops the recording.  Silent samples
before any speech leave the state untouched. -/
structure VadState where
  hasSpoken : Bool
  silenceStart : Option Nat
  deriving DecidableEq

/-- An energy sample: the wall-clock time of the callback and the RMS
energy computed from the analyser window. -/
structure EnergySample where
  now : Nat
  rms : ℚ
  deriving DecidableEq

/-- Embedding of the body of checkAudioLevel (use-video-stream.ts):
returns the updated state and whether stopRecording was invoked. -/
def vadStep (silenceThreshold : ℚ) (silenceDuration : Nat) (s : VadState)
    (sample : EnergySample) : VadState × Bool :=
  if sample.rms < silenceThreshold then
    if s.hasSpoken then
      match s.silenceStart with
      | none => ({ s with silenceStart := some sample.now }, false)
      | some t0 =>
        if silenceDuration < sample.now - t0 then (s, true) else (s, false)
    else (s, false)
  else ({ hasSpoken := true, silenceStart := none }, false)

/-- Run the VAD loop over a sample list; the result is the index of the
sample at which the recording auto-stopped, if any. -/
def vadRun (thr : ℚ) (dur : Nat) (s : VadState) : List EnergySample → Option Nat
  | [] => none
  | x :: rest =>
    let step := vadStep thr dur s x
    if step.2 then some 0 else (vadRun thr dur step.1 rest).map (· + 1)

/-- Sample m of the list exists and is below the silence threshold. -/
def silentAt (thr : ℚ) (l : List EnergySample) (m : Nat) : Prop :=
  ∃ x, l.get? m = some x ∧ x.rms < thr

/-- Sample m of the list exists and reaches the silence threshold. -/
def loudAt (thr : ℚ) (l : List EnergySample) (m : Nat) : Prop :=
  ∃ x, l.get? m = some x ∧ thr ≤ x.rms

theorem vadStep_loud (thr : ℚ) (dur : Nat) (s : VadState) (x : EnergySample)
    (hx : ¬ x.rms < thr) :
    vadStep thr dur s x = (⟨true, none⟩, false) := by
  simp [vadStep, hx]

theorem vadStep_silent_noSpeech (thr : ℚ) (dur : Nat) (s : VadState) (x : EnergySample)
    (hx : x.rms < thr) (hs : s.hasSpoken = false) :
    vadStep thr dur s x = (s, false) := by
  simp [vadStep, hx, hs]

theorem vadStep_silence_begin (thr : ℚ) (dur : Nat) (s : VadState) (x : EnergySample)
    (hx : x.rms < thr) (hs : s.hasSpoken = true) (hss : s.silenceStart = none) :
    vadStep thr dur s x = ({ s with silenceStart := some x.now }, false) := by
  simp [vadStep, hx, hs, hss]

theorem vadStep_silence_timeout (thr : ℚ) (dur : Nat) (s : VadState) (x : EnergySample)
    (t0 : Nat) (hx : x.rms < thr) (hs : s.hasSpoken = true)
    (hss : s.silenceStart = some t0) (hd : dur < x.now - t0) :
    vadStep thr dur s x = (s, true) := by
  simp [vadStep, hx, hs, hss, hd]

theorem vadStep_silence_within (thr : ℚ) (dur : Nat) (s : VadState) (x : EnergySample)
    (t0 : Nat) (hx : x.rms < thr) (hs : s.hasSpoken = true)
    (hss : s.silenceStart = some t0) (hd : ¬ dur < x.now - t0) :
    vadStep thr dur s x = (s, false) := by
  simp [vadStep, hx, hs, hss, hd]

theorem vadRun_cons (thr : ℚ) (dur : Nat) (s : VadState) (x : EnergySample)
    (rest : List EnergySample) :
    vadRun thr dur s (x :: rest) =
      if (vadStep thr dur s x).2 then some 0
      else (vadRun thr dur (vadStep thr dur s x).1 rest).map (· + 1) := rfl

theorem vadRun_cons_stop (thr : ℚ) (dur : Nat) (s s2 : VadState) (x : EnergySample)
    (rest : List EnergySample) (h : vadStep thr dur s x = (s2, true)) :
    vadRun thr dur s (x :: rest) = some 0 := by
  rw [vadRun_cons, h]
  rfl

theorem vadRun_cons_go (thr : ℚ) (dur : Nat) (s s2 : VadState) (x : EnergySample)
    (rest : List EnergySample) (h : vadStep thr dur s x = (s2, false)) :
    vadRun thr dur s (x :: rest) = (vadRun thr dur s2 rest).map (· + 1) := by
  rw [vadRun_cons, h]
  rfl

/-- Characterization of an auto-stop of the VAD loop started in an
arbitrary state: either the decisive silent run began at some sample k
of the list (preceded by speech within the list unless the state already
had hasSpoken), or the run began before the list (the state carried both
hasSpoken and a silence-start timestamp) and every sample of the list up
to the stop is silent. -/
theorem vadRun_stop_spec (thr : ℚ) (dur : Nat) (s : VadState)
    (l : List EnergySample) (i : Nat) (h : vadRun thr dur s l = some i) :
    (∃ k xk xi, k ≤ i ∧ l.get? k = some xk ∧ l.get? i = some xi ∧
      (∀ m, k ≤ m → m ≤ i → silentAt thr l m) ∧ dur < xi.now - xk.now ∧
      (s.hasSpoken = true ∨ ∃ j, j < k ∧ loudAt thr l j))
    ∨ (∃ t0 xi, s.hasSpoken = true ∧ s.silenceStart = some t0 ∧ l.get? i = some xi ∧
      (∀ m, m ≤ i → silentAt thr l m) ∧ dur < xi.now - t0) := by
  induction l generalizing s i with
  | nil => simp [vadRun] at h
  | cons x rest ih =>
    by_cases hx : x.rms < thr
    · by_cases hs : s.hasSpoken = true
      · cases hss : s.silenceStart with
        | none =>
          rw [vadRun_cons_go thr dur s _ x rest
            (vadStep_silence_begin thr dur s x hx hs hss)] at h
          rcases Option.map_eq_some'.mp h with ⟨i2, h2, hi⟩
          subst hi
          rcases ih _ _ h2 with ⟨k, xk, xi, hk, hgk, hgi, hrun, hdur, _⟩ |
            ⟨t0, xi, _, hss2, hgi, hall, hdur⟩
          · refine Or.inl ⟨k + 1, xk, xi, by omega, hgk, hgi, ?_, hdur, Or.inl hs⟩
            intro m hm1 hm2
            cases m with
            | zero => omega
            | succ m2 => exact hrun m2 (by omega) (by omega)
          · have ht0 : t0 = x.now := by simpa using hss2.symm
            subst ht0
            refine Or.inl ⟨0, x, xi, by omega, rfl, hgi, ?_, hdur, Or.inl hs⟩
            intro m _ hm2
            cases m with
            | zero => exact ⟨x, rfl, hx⟩
            | succ m2 => exact hall m2 (by omega)
        | some t0 =>
          by_cases hd : dur < x.now - t0
          · rw [vadRun_cons_stop thr dur s s x rest
              (vadStep_silence_timeout thr dur s x t0 hx hs hss hd)] at h
            have hi : i = 0 := by simpa using h.symm
            subst hi
            refine Or.inr ⟨t0, x, hs, rfl, rfl, ?_, hd⟩
            intro m hm
            cases m with
            | zero => exact ⟨x, rfl, hx⟩
            | succ m2 => omega
          · rw [vadRun_cons_go thr dur s s x rest
              (vadStep_silence_within thr dur s x t0 hx hs hss hd)] at h
            rcases Option.map_eq_some'.mp h with ⟨i2, h2, hi⟩
            subst hi
            rcases ih _ _ h2 with ⟨k, xk, xi, hk, hgk, hgi, hrun, hdur, hsp⟩ |
              ⟨t02, xi, _, hss2, hgi, hall, hdur⟩
            · refine Or.inl ⟨k + 1, xk, xi, by omega, hgk, hgi, ?_, hdur, ?_⟩
              · intro m hm1 hm2
                cases m with
                | zero => omega
                | succ m2 => exact hrun m2 (by omega) (by omega)
              · rcases hsp with hsp | ⟨j, hj, hl⟩
                · exact Or.inl hsp
                · exact Or.inr ⟨j + 1, by omega, hl⟩
            · have ht0 : t02 = t0 := by
                rw [hss] at hss2
                exact (Option.some.inj hss2).symm
              rw [ht0] at hdur
              refine Or.inr ⟨t0, xi, hs, rfl, hgi, ?_, hdur⟩
              intro m hm
              cases m with
              | zero => exact ⟨x, rfl, hx⟩
              | succ m2 => exact hall m2 (by omega)
      · have hsf : s.hasSpoken = false := by simpa using hs
        rw [vadRun_cons_go thr dur s s x rest
          (vadStep_silent_noSpeech thr dur s x hx hsf)] at h
        rcases Option.map_eq_some'.mp h with ⟨i2, h2, hi⟩
        subst hi
        rcases ih _ _ h2 with ⟨k, xk, xi, hk, hgk, hgi, hrun, hdur, hsp⟩ |
          ⟨t0, xi, hsp, _, _, _, _⟩
        · refine Or.inl ⟨k + 1, xk, xi, by omega, hgk, hgi, ?_, hdur, ?_⟩
          · intro m hm1 hm2
            cases m with
            | zero => omega
            | succ m2 => exact hrun m2 (by omega) (by omega)
          · rcases hsp with hsp | ⟨j, hj, hl⟩
            · exact absurd hsp hs
            · exact Or.inr ⟨j + 1, by omega, hl⟩
        · exact absurd hsp hs
    · rw [vadRun_cons_go thr dur s _ x rest (vadStep_loud thr dur s x hx)] at h
      rcases Option.map_eq_some'.mp h with ⟨i2, h2, hi⟩
      subst hi
      rcases ih _ _ h2 with ⟨k, xk, xi, hk, hgk, hgi, hrun, hdur, _⟩ |
        ⟨t0, xi, _, hss2, _, _, _⟩
      · refine Or.inl ⟨k + 1, xk, xi, by omega, hgk, hgi, ?_, hdur,
          Or.inr ⟨0, by omega, ⟨x, rfl, not_lt.mp hx⟩⟩⟩
        intro m hm1 hm2
        cases m with
        | zero => omega
        | succ m2 => exact hrun m2 (by omega) (by omega)
      · simp at hss2

/-! ## Claim theorems -/

/-- C1 counterexample: in the source, one activation of the recorder while
AI playback is active performs the microphone request first and cancels the
playback only afterwards, via the onRecordingStart callback that runs after
mediaRecorder.start; and when the device-open call fails, the playback is
not cancelled at all.  This refutes the claimed cancel-then-acquire order. -/
theorem c1_counterexample :
    startRecording false true true =
      [RecorderAction.requestMic, RecorderAction.recorderStarted,
        RecorderAction.cancelPlayback] ∧
    occursStrictlyBefore RecorderAction.cancelPlayback RecorderAction.requestMic
      (startRecording false true true) = false ∧
    RecorderAction.cancelPlayback ∉ startRecording false false true := by
  decide

/-- C1 (amended): starting a recording while playback is active cancels the
playback, but only after the microphone stream has been successfully
acquired and the recorder started (acquire-then-cancel); if the device-open
call fails, the playback is not cancelled; activating while already
recording is a no-op. -/
theorem c1_cancel_after_acquire (isAIPlaying micOk : Bool) :
    (isAIPlaying = true → micOk = true →
      RecorderAction.cancelPlayback ∈ startRecording false micOk isAIPlaying ∧
      occursStrictlyBefore RecorderAction.requestMic RecorderAction.cancelPlayback
        (startRecording false micOk isAIPlaying) = true) ∧
    (micOk = false → RecorderAction.cancelPlayback ∉ startRecording false micOk isAIPlaying) ∧
    startRecording true micOk isAIPlaying = [] := by
  cases isAIPlaying <;> cases micOk <;> decide

/-- C1 witness: the amended theorem at a concrete activation. -/
theorem c1_cancel_after_acquire_witness :
    RecorderAction.cancelPlayback ∈ startRecording false true true ∧
    occursStrictlyBefore RecorderAction.requestMic RecorderAction.cancelPlayback
      (startRecording false true true) = true :=
  (c1_cancel_after_acquire true true).1 rfl rfl

/-- Context of the C2 counterexample: session present and started,
continuous listening mode on, but an upload still in flight. -/
def c2SendingCtx : RoomState :=
  { initialRoomState with interviewStarted := true, isSending := true, isListeningMode := true }

/-- C2 counterexample: a 500-byte clip arriving in continuous listening
mode while a previous upload is still in flight is dropped by the guard
at the top of handleRecordingStop without scheduling a new recording
cycle, refuting the claim that a small clip in listening mode always
restarts recording. -/
theorem c2_counterexample :
    (handleRecordingStop true c2SendingCtx 500 none).2 = [] := by
  rfl

/-- C2 (amended): a clip below the 1000-byte threshold never causes a
network call or a user-facing alert and leaves the state unchanged; and
when the handler is actively processing (session present, interview
started, no upload in flight) and the engine is in continuous listening
mode, a new recording cycle is scheduled. -/
theorem c2_small_clip_discarded (hasSession : Bool) (s : RoomState) (blobSize : Nat)
    (outcome : Option InterviewApiResult) (hsmall : blobSize < 1000) :
    StopAction.uploadAudio ∉ (handleRecordingStop hasSession s blobSize outcome).2 ∧
    StopAction.showAlert ∉ (handleRecordingStop hasSession s blobSize outcome).2 ∧
    (handleRecordingStop hasSession s blobSize outcome).1 = s ∧
    (hasSession = true → s.interviewStarted = true → s.isSending = false →
      s.isListeningMode = true →
      (handleRecordingStop hasSession s blobSize outcome).2 =
        [StopAction.scheduleRestart 300]) := by
  by_cases hg : (!hasSession || !s.interviewStarted || s.isSending) = true
  · have he : handleRecordingStop hasSession s blobSize outcome = (s, []) := by
      unfold handleRecordingStop
      rw [if_pos hg]
    rw [he]
    refine ⟨by simp, by simp, rfl, ?_⟩
    intro h1 h2 h3 _
    rw [h1, h2, h3] at hg
    simp at hg
  · have he : handleRecordingStop hasSession s blobSize outcome =
        (s, if s.isListeningMode then [StopAction.scheduleRestart 300] else []) := by
      unfold handleRecordingStop
      rw [if_neg hg, if_pos hsmall]
    rw [he]
    refine ⟨?_, ?_, rfl, ?_⟩
    · cases s.isListeningMode <;> simp
    · cases s.isListeningMode <;> simp
    · intro _ _ _ hl
      rw [hl]
      rfl

/-- C2 witness context: an actively processing, listening session. -/
def c2ListeningCtx : RoomState :=
  { initialRoomState with interviewStarted := true, isListeningMode := true }

/-- C2 witness: the amended theorem at a concrete 500-byte clip. -/
theorem c2_small_clip_discarded_witness :
    StopAction.uploadAudio ∉ (handleRecordingStop true c2ListeningCtx 500 none).2 ∧
    (handleRecordingStop true c2ListeningCtx 500 none).2 =
      [StopAction.scheduleRestart 300] :=
  ⟨(c2_small_clip_discarded true c2ListeningCtx 500 none (by decide)).1,
    (c2_small_clip_discarded true c2ListeningCtx 500 none (by decide)).2.2.2
      rfl rfl rfl rfl⟩

theorem stateStageInvariant_applyAll (s : RoomState) (rs : List InterviewApiResult)
    (hs : StateStageInvariant s) (hr : ∀ r ∈ rs, ServerStageInvariant r) :
    StateStageInvariant (applyAll s rs) := by
  induction rs generalizing s with
  | nil => exact hs
  | cons r rs ih =>
    refine ih (applyApiResult s r) ?_ ?_
    · intro hce
      exact hr r (List.mem_cons_self r rs) hce
    · intro r2 hr2
      exact hr r2 (List.mem_cons_of_mem r hr2)

/-- C3: starting from the initial mirror and applying any sequence of
interview-API responses that respect the server-side stage invariant
(spec-modelled, since the backend is not under src/), the mirrored state
satisfies after every applied transition: canEditCode is never true
while the stage is outside TASK and CODING.  The mirror copies both
fields verbatim from the response, so the invariant transfers. -/
theorem c3_canEditCode_stage_invariant (rs : List InterviewApiResult)
    (hr : ∀ r ∈ rs, ServerStageInvariant r) (n : Nat) :
    StateStageInvariant (applyAll initialRoomState (rs.take n)) := by
  refine stateStageInvariant_applyAll initialRoomState (rs.take n) ?_ ?_
  · intro hce
    simp [initialRoomState] at hce
  · intro r hrm
    exact hr r (List.take_subset n rs hrm)

/-- Demonstration response sequence for the C3 witness. -/
def c3DemoResponses : List InterviewApiResult :=
  [{ stage := "SCREENING", can_edit_code := false, task_unlocked := false,
     interview_ended := false, early_termination := false, messages_tail := [],
     hasAssistantAudio := true },
   { stage := "TASK", can_edit_code := true, task_unlocked := true,
     interview_ended := false, early_termination := false, messages_tail := [],
     hasAssistantAudio := true },
   { stage := "CODING", can_edit_code := true, task_unlocked := true,
     interview_ended := false, early_termination := false, messages_tail := [],
     hasAssistantAudio := false }]

/-- C3 witness: the invariant after the first two applied transitions of
the demonstration sequence. -/
theorem c3_canEditCode_stage_invariant_witness :
    StateStageInvariant (applyAll initialRoomState (c3DemoResponses.take 2)) :=
  c3_canEditCode_stage_invariant c3DemoResponses
    (by simp only [ServerStageInvariant]; decide) 2

/-- C4: with idleThreshold 30 s, cooldown 30000 ms and polls every
5000 ms under continuous inactivity, the nudge fires exactly at 30000 ms
and 60000 ms over the first minute (so never again before t = 60 s); the
firing tick assigns the last-nudge timestamp first and invokes the
awaited callback second, so the timestamp is updated before the
callback's async work resolves; and the firing tick records now as the
new last-nudge time. -/
theorem c4_idle_monitor :
    fireTimes (idleRun 30 30000 ⟨0, 0⟩ pollTimes) = [30000, 60000] ∧
    (∀ p ∈ idleRun 30 30000 ⟨0, 0⟩ pollTimes,
      p.2 = [] ∨ p.2 = [IdleAction.updateLastNudge, IdleAction.invokeCallback]) ∧
    (idleTick 30 30000 ⟨0, 0⟩ 30000).1.lastIdleCheck = 30000 := by
  decide

/-- Edit stream of the C5 scenario: edits at 0, 100, 200 and 700 ms. -/
def c5Edits : List EditorEvent :=
  [EditorEvent.edit 0 "a", EditorEvent.edit 100 "b", EditorEvent.edit 200 "c",
   EditorEvent.edit 700 "d"]

/-- C5: with an 800 ms debounce, the edit stream at 0, 100, 200, 700 ms
produces exactly one persist call, at 1500 ms, carrying the value of the
edit at 700 ms; every earlier scheduled persist was cancelled by the
following edit and no intermediate value is sent. -/
theorem c5_debounce_single_persist :
    runAutosave true true none c5Edits = [(1500, "d")] := by
  rfl

/-- C6 counterexample: an edit at t = 0 while eligible, followed by
canEditCode turning false at t = 400, still produces a persist call at
t = 800: the pending timer is not cancelled when the session becomes
ineligible, and its closure captured the eligibility of edit time, so a
code write is issued after canEditCode turned false. -/
theorem c6_counterexample :
    runAutosave true true none
      [EditorEvent.edit 0 "x", EditorEvent.setCanEdit 400 false] = [(800, "x")] := by
  rfl

/-- C6 (amended): a debounce timer still pending when canEditCode turns
false is not cancelled; it fires after the fixed delay and issues the
persist using the sessionId and canEditCode captured when the edit was
made, so a code write can be issued even though the session is no longer
eligible. -/
theorem c6_stale_timer_fires (t d : Nat) (v : String) (hd : d < debounceDelay) :
    runAutosave true true none
      [EditorEvent.edit t v, EditorEvent.setCanEdit (t + d) false] =
      [(t + debounceDelay, v)] := by
  have hne : ¬ (t + debounceDelay ≤ t + d) := by omega
  simp only [runAutosave]
  rw [if_neg hne]
  simp only [runAutosave, firePending]
  rfl

/-- C6 witness: the amended theorem at a concrete stale timer. -/
theorem c6_stale_timer_fires_witness :
    runAutosave true true none
      [EditorEvent.edit 100 "y", EditorEvent.setCanEdit 400 false] = [(900, "y")] :=
  c6_stale_timer_fires 100 300 "y" (by decide)

/-- C7 counterexample: toggleMute called while unmuted and recording
(muting) emits a stopRecording call, refuting the claim that mute does
not by itself stop an in-progress recording. -/
theorem c7_counterexample :
    MuteAction.stopRec ∈ toggleMute ⟨false, true, false, false⟩ := by
  decide

/-- C7 (amended): muting disables the post-playback auto-restart and in
addition stops an in-progress recording (whereas it stops nothing when no
recording is active); the auto-restart after playback occurs exactly when
the engine is unmuted and the recorder is available. -/
theorem c7_mute_behavior (c : MuteCtx) (m r : Bool) :
    (c.isMuted = false → c.isRecording = true → MuteAction.stopRec ∈ toggleMute c) ∧
    (c.isMuted = false → c.isRecording = false → MuteAction.stopRec ∉ toggleMute c) ∧
    (m = true → handleAudioEnded m r = false) ∧
    (m = false → handleAudioEnded m r = r) := by
  obtain ⟨mu, rg, pl, sn⟩ := c
  cases mu <;> cases rg <;> cases pl <;> cases sn <;> cases m <;> cases r <;> decide

/-- C7 witness: the amended theorem at a concrete muting call. -/
theorem c7_mute_behavior_witness :
    MuteAction.stopRec ∈ toggleMute ⟨false, true, false, false⟩ ∧
    handleAudioEnded true true = false :=
  ⟨(c7_mute_behavior ⟨false, true, false, false⟩ true true).1 rfl rfl,
    (c7_mute_behavior ⟨false, true, false, false⟩ true true).2.2.1 rfl⟩

/-- C8: along any reachable history, playAudio replaces the current
payload with a freshly allocated one and starts it (replace semantics);
a payload that was playing fires its completion callback no further time
once it is replaced by play or cancelled by stopAudio, for any future
history; a natural end of the playing payload fires its completion
callback immediately (and the global no-duplicate property makes that
exactly once); and a cancel call fires no completion callback. -/
theorem c8_playback_contract (cmds future : List PlayerCmd) (i : Nat) :
    ((playerStep (playerRun PlayerState.init cmds) PlayerCmd.play).current =
        some (playerRun PlayerState.init cmds).nextId ∧
      (playerStep (playerRun PlayerState.init cmds) PlayerCmd.play).isPlaying = true) ∧
    ((playerRun PlayerState.init cmds).isPlaying = true →
      (playerRun PlayerState.init cmds).current = some i →
      i ∉ (playerRun (playerStep (playerRun PlayerState.init cmds) PlayerCmd.play)
          future).completions ∧
      i ∉ (playerRun (playerStep (playerRun PlayerState.init cmds) PlayerCmd.cancel)
          future).completions) ∧
    ((playerRun PlayerState.init cmds).isPlaying = true →
      (playerRun PlayerState.init cmds).current = some i →
      (playerStep (playerRun PlayerState.init cmds) PlayerCmd.naturalEnd).completions =
        (playerRun PlayerState.init cmds).completions ++ [i]) ∧
    (playerRun PlayerState.init cmds).completions.Nodup ∧
    (playerStep (playerRun PlayerState.init cmds) PlayerCmd.cancel).completions =
      (playerRun PlayerState.init cmds).completions := by
  obtain ⟨h1, h2, h3, h4⟩ := playerInv_run PlayerState.init cmds playerInv_init
  refine ⟨⟨?_, ?_⟩, ?_, ?_, h2, ?_⟩
  · rw [playerStep_play]
  · rw [playerStep_play]
  · intro hp hc
    have hlt : i < (playerRun PlayerState.init cmds).nextId := h1 i hc
    have hni : i ∉ (playerRun PlayerState.init cmds).completions := h4 hp i hc
    constructor
    · intro hmem
      have hfrom := playerRun_completions_from
        (playerStep (playerRun PlayerState.init cmds) PlayerCmd.play) future i hmem
      rw [playerStep_play] at hfrom
      rcases hfrom with hmem2 | ⟨_, hc2⟩ | hge
      · exact hni hmem2
      · have : i = (playerRun PlayerState.init cmds).nextId := by simpa using hc2.symm
        omega
      · simp at hge
        omega
    · intro hmem
      have hfrom := playerRun_completions_from
        (playerStep (playerRun PlayerState.init cmds) PlayerCmd.cancel) future i hmem
      rw [playerStep_cancel] at hfrom
      rcases hfrom with hmem2 | ⟨hp2, _⟩ | hge
      · exact hni hmem2
      · simp at hp2
      · simp at hge
        omega
  · intro hp hc
    rw [playerStep_naturalEnd_playing _ i hc hp]
  · rw [playerStep_cancel]

/-- C8 witness: the contract at a concrete history with one playing
payload, cancelled in one branch and naturally ended in the other. -/
theorem c8_playback_contract_witness :
    (0 ∉ (playerRun (playerStep (playerRun PlayerState.init [PlayerCmd.play])
        PlayerCmd.cancel) [PlayerCmd.naturalEnd]).completions) ∧
    (playerStep (playerRun PlayerState.init [PlayerCmd.play])
        PlayerCmd.naturalEnd).completions =
      (playerRun PlayerState.init [PlayerCmd.play]).completions ++ [0] :=
  ⟨((c8_playback_contract [PlayerCmd.play] [PlayerCmd.naturalEnd] 0).2.1 rfl rfl).2,
    (c8_playback_contract [PlayerCmd.play] [PlayerCmd.naturalEnd] 0).2.2.1 rfl rfl⟩

/-- C9: an auto-stop of the VAD loop started from the fresh recorder
state happens only when some strictly earlier sample reached the energy
threshold (hasSpoken) and an uninterrupted run of below-threshold samples
from the recorded silence start through the stopping sample lasted longer
than the configured silence duration; moreover any sample at or above the
threshold clears the silence-start timestamp. -/
theorem c9_vad_autostop (thr : ℚ) (dur : Nat) (l : List EnergySample) (i : Nat)
    (h : vadRun thr dur ⟨false, none⟩ l = some i) :
    (∃ j k, j < k ∧ k ≤ i ∧ loudAt thr l j ∧
      (∀ m, k ≤ m → m ≤ i → silentAt thr l m) ∧
      ∃ xk xi, l.get? k = some xk ∧ l.get? i = some xi ∧ dur < xi.now - xk.now) ∧
    (∀ s x, ¬ x.rms < thr → (vadStep thr dur s x).1.silenceStart = none) := by
  constructor
  · rcases vadRun_stop_spec thr dur ⟨false, none⟩ l i h with
      ⟨k, xk, xi, hk, hgk, hgi, hrun, hdur, hsp⟩ | ⟨t0, xi, hsp, _, _, _, _⟩
    · rcases hsp with hsp | ⟨j, hj, hl⟩
      · simp at hsp
      · exact ⟨j, k, hj, hk, hl, hrun, xk, xi, hgk, hgi, hdur⟩
    · simp at hsp
  · intro s x hx
    rw [vadStep_loud thr dur s x hx]

/-- Energy trace of the C9 witness: speech at t = 0, silence from
t = 100 on, next callbacks at t = 100 and t = 1700. -/
def c9Samples : List EnergySample :=
  [{ now := 0, rms := 2 }, { now := 100, rms := 0 }, { now := 1700, rms := 0 }]

/-- C9 witness: the theorem at a concrete trace that auto-stops at the
third sample. -/
theorem c9_vad_autostop_witness :
    vadRun 1 1500 ⟨false, none⟩ c9Samples = some 2 ∧
    (∃ j k, j < k ∧ k ≤ 2 ∧ loudAt 1 c9Samples j ∧
      (∀ m, k ≤ m → m ≤ 2 → silentAt 1 c9Samples m) ∧
      ∃ xk xi, c9Samples.get? k = some xk ∧ c9Samples.get? 2 = some xi ∧
        1500 < xi.now - xk.now) :=
  ⟨by decide, (c9_vad_autostop 1 1500 c9Samples 2 (by decide)).1⟩

/-- C10: the onRecordingStop callback is invoked only with a strictly
positive blob size; a recording cycle whose chunks sum to zero ends
without invoking the callback, so the consumer never receives a
zero-byte clip. -/
theorem c10_no_zero_byte_clip (hasCallback : Bool) (dataEvents : List Nat) (b : Nat)
    (h : onstopResult hasCallback dataEvents = some b) : 0 < b := by
  unfold onstopResult at h
  by_cases hc : hasCallback = true ∧ 0 < (recordedChunks dataEvents).sum
  · rw [if_pos hc] at h
    cases h
    exact hc.2
  · rw [if_neg hc] at h
    cases h

/-- C10 witness: the theorem at a concrete invoked callback. -/
theorem c10_no_zero_byte_clip_witness :
    onstopResult true [500] = some 500 ∧ 0 < 500 :=
  ⟨rfl, c10_no_zero_byte_clip true [500] 500 rfl⟩

end InterviewEngine
